import Mathlib

/-!
# Verification of the star-schema store (`src/star_schema.py`)

Shallow embedding of `StarSchemaModel` from `src/star_schema.py`.

Python dictionaries preserve insertion order and here every insertion uses a
fresh key (checked against the lookup index or generated by a counter), so
each `Dict` is embedded as an association list to which new entries are
appended at the end; `dict.get` becomes `alookup`.  Mutating methods become
state-passing functions `StarSchemaModel → ... → result × StarSchemaModel`;
read-only methods (which perform no assignment to any field of `self`) become
pure functions of the state.  `datetime` values are embedded as a `Datetime`
record of calendar/clock fields; `strftime("%Y-%m-%d")`, `strftime("%A")` and
`isoformat()` are embedded by `Datetime.dateStr`, `Datetime.weekdayName`
(Sakamoto day-of-week with the full English weekday names produced by the C
locale) and `Datetime.isoformat`.  The `ValueError`s raised by `add_signup`
are embedded as the two-constructor error type `SignupError` (the spec's two
`NotFoundError` kinds); the raise happens before any field assignment, so the
error branch returns the state unchanged.
-/

/-- Association-list lookup, embedding `dict.get` / `key in dict` on a
Python dict represented in insertion order.  Returns the value of the first
matching key. -/
def alookup {α β : Type} [DecidableEq α] : List (α × β) → α → Option β
  | [], _ => none
  | p :: rest, k => if p.1 = k then some p.2 else alookup rest k

/-- Embeds `class DimStudent(BaseModel)`. -/
structure DimStudent where
  student_id : Nat
  email : String
  name : String
  grade_level : Int
  deriving Repr, DecidableEq

/-- Embeds `class DimActivity(BaseModel)`. -/
structure DimActivity where
  activity_id : Nat
  activity_name : String
  description : String
  schedule : String
  max_participants : Int
  deriving Repr, DecidableEq

/-- Embeds `class DimDate(BaseModel)`. -/
structure DimDate where
  date_id : Nat
  date : String
  day : Nat
  month : Nat
  year : Nat
  weekday : String
  deriving Repr, DecidableEq

/-- Embeds `class FactActivitySignup(BaseModel)`. -/
structure FactActivitySignup where
  fact_signup_id : Nat
  student_id : Nat
  activity_id : Nat
  date_id : Nat
  signup_timestamp : String
  deriving Repr, DecidableEq

/-- A Python `datetime` value: calendar day plus time-of-day. -/
structure Datetime where
  year : Nat
  month : Nat
  day : Nat
  hour : Nat
  minute : Nat
  second : Nat
  deriving Repr, DecidableEq

/-- Zero-pad to two digits, as `strftime` does for `%m`, `%d`, `%H`, `%M`, `%S`. -/
def pad2 (n : Nat) : String :=
  if n < 10 then "0" ++ toString n else toString n

/-- Zero-pad to four digits, as `strftime` does for `%Y`. -/
def pad4 (n : Nat) : String :=
  if n < 10 then "000" ++ toString n
  else if n < 100 then "00" ++ toString n
  else if n < 1000 then "0" ++ toString n
  else toString n

/-- Embeds `date.strftime("%Y-%m-%d")`: the calendar day of the timestamp. -/
def Datetime.dateStr (t : Datetime) : String :=
  pad4 t.year ++ "-" ++ pad2 t.month ++ "-" ++ pad2 t.day

/-- Embeds `datetime.isoformat()` (microseconds are zero, so the seconds form):
the full instant, day and time-of-day. -/
def Datetime.isoformat (t : Datetime) : String :=
  t.dateStr ++ "T" ++ pad2 t.hour ++ ":" ++ pad2 t.minute ++ ":" ++ pad2 t.second

/-- Sakamoto month offsets for the day-of-week computation. -/
def sakamotoOffsets : List Nat := [0, 3, 2, 5, 0, 3, 5, 1, 4, 6, 2, 4]

/-- Day of week of a Gregorian date, 0 = Sunday ... 6 = Saturday
(Sakamoto's congruence). -/
def dayOfWeek (y m d : Nat) : Nat :=
  let y' := if m < 3 then y - 1 else y
  (y' + y' / 4 - y' / 100 + y' / 400 + sakamotoOffsets.getD (m - 1) 0 + d) % 7

/-- The full English weekday names, indexed from Sunday, as produced by
`strftime("%A")` in the C locale. -/
def weekdayNames : List String :=
  ["Sunday", "Monday", "Tuesday", "Wednesday", "Thursday", "Friday", "Saturday"]

/-- Embeds `date.strftime("%A")`: the full English weekday name of the timestamp. -/
def Datetime.weekdayName (t : Datetime) : String :=
  weekdayNames.getD (dayOfWeek t.year t.month t.day) ""

/-- The state of `class StarSchemaModel` (`__init__`): four tables in
insertion order, four auto-increment counters, three lookup indexes. -/
structure StarSchemaModel where
  dim_students : List (Nat × DimStudent)
  dim_activities : List (Nat × DimActivity)
  dim_dates : List (Nat × DimDate)
  fact_signups : List (Nat × FactActivitySignup)
  student_counter : Nat
  activity_counter : Nat
  date_counter : Nat
  fact_counter : Nat
  student_email_index : List (String × Nat)
  activity_name_index : List (String × Nat)
  date_string_index : List (String × Nat)
  deriving Repr, DecidableEq

/-- Embeds `StarSchemaModel.__init__`: all tables and indexes empty, all counters 1. -/
def emptyStore : StarSchemaModel :=
  { dim_students := []
    dim_activities := []
    dim_dates := []
    fact_signups := []
    student_counter := 1
    activity_counter := 1
    date_counter := 1
    fact_counter := 1
    student_email_index := []
    activity_name_index := []
    date_string_index := [] }

/-- Embeds `StarSchemaModel.add_student(email, name, grade_level)`. -/
def add_student (s : StarSchemaModel) (email name : String) (grade_level : Int) :
    Nat × StarSchemaModel :=
  match alookup s.student_email_index email with
  | some id => (id, s)
  | none =>
    let student_id := s.student_counter
    let student : DimStudent :=
      { student_id := student_id, email := email, name := name,
        grade_level := grade_level }
    (student_id,
      { s with
        dim_students := s.dim_students ++ [(student_id, student)]
        student_email_index := s.student_email_index ++ [(email, student_id)]
        student_counter := s.student_counter + 1 })

/-- Embeds `StarSchemaModel.add_activity(activity_name, description, schedule,
max_participants)`. -/
def add_activity (s : StarSchemaModel) (activity_name description schedule : String)
    (max_participants : Int) : Nat × StarSchemaModel :=
  match alookup s.activity_name_index activity_name with
  | some id => (id, s)
  | none =>
    let activity_id := s.activity_counter
    let activity : DimActivity :=
      { activity_id := activity_id, activity_name := activity_name,
        description := description, schedule := schedule,
        max_participants := max_participants }
    (activity_id,
      { s with
        dim_activities := s.dim_activities ++ [(activity_id, activity)]
        activity_name_index := s.activity_name_index ++ [(activity_name, activity_id)]
        activity_counter := s.activity_counter + 1 })

/-- Embeds `StarSchemaModel.add_date(date)`. -/
def add_date (s : StarSchemaModel) (date : Datetime) : Nat × StarSchemaModel :=
  let date_str := date.dateStr
  match alookup s.date_string_index date_str with
  | some id => (id, s)
  | none =>
    let date_id := s.date_counter
    let dim_date : DimDate :=
      { date_id := date_id, date := date_str, day := date.day,
        month := date.month, year := date.year,
        weekday := date.weekdayName }
    (date_id,
      { s with
        dim_dates := s.dim_dates ++ [(date_id, dim_date)]
        date_string_index := s.date_string_index ++ [(date_str, date_id)]
        date_counter := s.date_counter + 1 })

/-- The two `ValueError`s `add_signup` can raise — the spec's `NotFoundError`
kinds (unknown student / unknown activity), each carrying the key of the
failed lookup as its message does. -/
inductive SignupError where
  | studentNotFound (email : String)
  | activityNotFound (name : String)
  deriving Repr, DecidableEq

/-- Embeds `StarSchemaModel.add_signup(student_email, activity_name, signup_date)`.
The Python default `signup_date=None` is resolved to `datetime.now()` on the
first line of the body and the rest of the method only ever sees a concrete
`datetime`, so the embedding takes the resolved `Datetime` as an argument.
The two raises happen before any assignment to `self`, so the error branches
return the entry state. -/
def add_signup (s : StarSchemaModel) (student_email activity_name : String)
    (signup_date : Datetime) : Except SignupError Nat × StarSchemaModel :=
  match alookup s.student_email_index student_email with
  | none => (.error (.studentNotFound student_email), s)
  | some student_id =>
    match alookup s.activity_name_index activity_name with
    | none => (.error (.activityNotFound activity_name), s)
    | some activity_id =>
      let dres := add_date s signup_date
      let date_id := dres.1
      let s1 := dres.2
      let fact_id := s1.fact_counter
      let fact : FactActivitySignup :=
        { fact_signup_id := fact_id, student_id := student_id,
          activity_id := activity_id, date_id := date_id,
          signup_timestamp := signup_date.isoformat }
      (.ok fact_id,
        { s1 with
          fact_signups := s1.fact_signups ++ [(fact_id, fact)]
          fact_counter := s1.fact_counter + 1 })

/-- Embeds `StarSchemaModel.get_student_by_email(email)`.  The source guards with
Python truthiness (`if student_id`), which is false for `None` and for `0`;
the `id = 0` case is spelled out. -/
def get_student_by_email (s : StarSchemaModel) (email : String) : Option DimStudent :=
  match alookup s.student_email_index email with
  | none => none
  | some id => if id = 0 then none else alookup s.dim_students id

/-- Embeds `StarSchemaModel.get_activity_by_name(name)` (same truthiness guard). -/
def get_activity_by_name (s : StarSchemaModel) (name : String) : Option DimActivity :=
  match alookup s.activity_name_index name with
  | none => none
  | some id => if id = 0 then none else alookup s.dim_activities id

/-- Embeds `StarSchemaModel.get_signups_by_student(student_email)`: the guard is
`if not student_id`, false for `None` and `0`; otherwise a linear scan of the
fact table in insertion order. -/
def get_signups_by_student (s : StarSchemaModel) (student_email : String) :
    List FactActivitySignup :=
  match alookup s.student_email_index student_email with
  | none => []
  | some id =>
    if id = 0 then []
    else (s.fact_signups.map Prod.snd).filter (fun f => f.student_id = id)

/-- Embeds `StarSchemaModel.get_signups_by_activity(activity_name)`. -/
def get_signups_by_activity (s : StarSchemaModel) (activity_name : String) :
    List FactActivitySignup :=
  match alookup s.activity_name_index activity_name with
  | none => []
  | some id =>
    if id = 0 then []
    else (s.fact_signups.map Prod.snd).filter (fun f => f.activity_id = id)

/-- One row of the `get_activity_analytics` result (the ad hoc dict of the
source, made a record). -/
structure ActivityAnalyticsRow where
  activity_name : String
  description : String
  schedule : String
  max_participants : Int
  current_signups : Nat
  spots_left : Int
  deriving Repr, DecidableEq

/-- Embeds `StarSchemaModel.get_activity_analytics()`: one row per activity in
dimension-table iteration (= insertion) order; `spots_left` is plain integer
subtraction, not clamped. -/
def get_activity_analytics (s : StarSchemaModel) : List ActivityAnalyticsRow :=
  s.dim_activities.map (fun p =>
    let signups := (s.fact_signups.map Prod.snd).filter
      (fun f => f.activity_id = p.1)
    { activity_name := p.2.activity_name
      description := p.2.description
      schedule := p.2.schedule
      max_participants := p.2.max_participants
      current_signups := signups.length
      spots_left := p.2.max_participants - (signups.length : Int) })

/-- One row of the `get_student_analytics` result. -/
structure StudentAnalyticsRow where
  student_name : String
  email : String
  grade_level : Int
  activities_count : Nat
  activities : List String
  deriving Repr, DecidableEq

/-- Embeds `StarSchemaModel.get_student_analytics()`: per student, the matching
facts in insertion order, each resolved to its activity name (dropped if the
activity id is absent, which cannot happen in a reachable store). -/
def get_student_analytics (s : StarSchemaModel) : List StudentAnalyticsRow :=
  s.dim_students.map (fun p =>
    let signups := (s.fact_signups.map Prod.snd).filter
      (fun f => f.student_id = p.1)
    let activities := signups.filterMap
      (fun f => (alookup s.dim_activities f.activity_id).map
        (fun a => a.activity_name))
    { student_name := p.2.name
      email := p.2.email
      grade_level := p.2.grade_level
      activities_count := activities.length
      activities := activities })
/-! ## The reachability invariant

`StoreInv` links every table's keys to its counter (keys are exactly
`1, 2, ..., counter - 1` in insertion order), every lookup index to its table
(the index is exactly the natural-key/surrogate-key projection of the table,
in the same order), the uniqueness of stored natural keys, the stored id
fields, and the fact table's foreign-key integrity. -/

structure StoreInv (s : StarSchemaModel) : Prop where
  students_keys : s.dim_students.map Prod.fst = List.range' 1 s.dim_students.length
  students_counter : s.student_counter = s.dim_students.length + 1
  students_idfield : ∀ p ∈ s.dim_students, p.2.student_id = p.1
  students_index : s.student_email_index = s.dim_students.map (fun p => (p.2.email, p.1))
  students_emails_nodup : (s.dim_students.map (fun p => p.2.email)).Nodup
  activities_keys : s.dim_activities.map Prod.fst = List.range' 1 s.dim_activities.length
  activities_counter : s.activity_counter = s.dim_activities.length + 1
  activities_idfield : ∀ p ∈ s.dim_activities, p.2.activity_id = p.1
  activities_index : s.activity_name_index = s.dim_activities.map (fun p => (p.2.activity_name, p.1))
  activities_names_nodup : (s.dim_activities.map (fun p => p.2.activity_name)).Nodup
  dates_keys : s.dim_dates.map Prod.fst = List.range' 1 s.dim_dates.length
  dates_counter : s.date_counter = s.dim_dates.length + 1
  dates_idfield : ∀ p ∈ s.dim_dates, p.2.date_id = p.1
  dates_index : s.date_string_index = s.dim_dates.map (fun p => (p.2.date, p.1))
  dates_strings_nodup : (s.dim_dates.map (fun p => p.2.date)).Nodup
  facts_keys : s.fact_signups.map Prod.fst = List.range' 1 s.fact_signups.length
  facts_counter : s.fact_counter = s.fact_signups.length + 1
  facts_idfield : ∀ p ∈ s.fact_signups, p.2.fact_signup_id = p.1
  facts_fk : ∀ p ∈ s.fact_signups,
    p.2.student_id ∈ s.dim_students.map Prod.fst ∧
    p.2.activity_id ∈ s.dim_activities.map Prod.fst ∧
    p.2.date_id ∈ s.dim_dates.map Prod.fst

/-- Store states reachable from the fresh store by any sequence of the four
mutating operations (`add_signup` covering both its success and failure
outcomes, since the failure branches return the entry state). -/
inductive Reachable : StarSchemaModel → Prop where
  | empty : Reachable emptyStore
  | student {s} (email name : String) (grade_level : Int) :
      Reachable s → Reachable (add_student s email name grade_level).2
  | activity {s} (activity_name description schedule : String)
      (max_participants : Int) :
      Reachable s → Reachable (add_activity s activity_name description schedule max_participants).2
  | date {s} (d : Datetime) : Reachable s → Reachable (add_date s d).2
  | signup {s} (student_email activity_name : String) (signup_date : Datetime) :
      Reachable s → Reachable (add_signup s student_email activity_name signup_date).2

/-! ## Apparatus for the counter-monotonicity claim

`runAdds` folds a transcript of `add_student` calls (email, name, grade)
over a store, collecting the returned ids.  `firstOccs` lists the distinct
emails of a transcript in first-occurrence order; `posOf` is the position of
the first occurrence; `withIds` enumerates a list of natural keys with
consecutive surrogate ids starting at a base. -/

def runAdds : List (String × String × Int) → StarSchemaModel → List Nat × StarSchemaModel
  | [], s => ([], s)
  | c :: rest, s =>
    let r := add_student s c.1 c.2.1 c.2.2
    let rr := runAdds rest r.2
    (r.1 :: rr.1, rr.2)

def firstOccs : List String → List String
  | [] => []
  | e :: rest => e :: (firstOccs rest).filter (fun x => x ≠ e)

def posOf (e : String) : List String → Nat
  | [] => 0
  | x :: rest => if x = e then 0 else posOf e rest + 1

def withIds : List String → Nat → List (String × Nat)
  | [], _ => []
  | e :: rest, b => (e, b) :: withIds rest (b + 1)

/-! ## Demo stores used by concrete witnesses -/

/-- 2024-01-15 10:00:00, a demo timestamp. -/
def demoT : Datetime := ⟨2024, 1, 15, 10, 0, 0⟩

/-- A small demo store: two students, two activities, no signups. -/
def wStore : StarSchemaModel :=
  (add_activity (add_activity
    (add_student (add_student emptyStore "a@x.edu" "A" 9).2 "b@x.edu" "B" 10).2
    "Chess" "d" "Mon" 2).2 "Art" "d2" "Tue" 5).2

/-- A demo store with one activity of capacity 2 and three signups for it. -/
def overCap : StarSchemaModel :=
  (add_signup (add_signup (add_signup
    (add_activity (add_student emptyStore "a@x.edu" "A" 9).2 "Chess" "d" "Mon" 2).2
    "a@x.edu" "Chess" demoT).2 "a@x.edu" "Chess" demoT).2 "a@x.edu" "Chess" demoT).2

/-! ## Basic lemmas about association-list lookup -/

theorem alookup_append_of_none {α β : Type} [DecidableEq α]
    {l₁ : List (α × β)} (l₂ : List (α × β)) {k : α}
    (h : alookup l₁ k = none) : alookup (l₁ ++ l₂) k = alookup l₂ k := by
  induction l₁ with
  | nil => simp
  | cons p rest ih =>
    simp only [alookup] at h ⊢
    split at h
    · exact absurd h (by simp)
    · rw [if_neg ‹¬ p.1 = k›]
      exact ih h

theorem alookup_append_of_some {α β : Type} [DecidableEq α]
    {l₁ : List (α × β)} (l₂ : List (α × β)) {k : α} {v : β}
    (h : alookup l₁ k = some v) : alookup (l₁ ++ l₂) k = some v := by
  induction l₁ with
  | nil => simp [alookup] at h
  | cons p rest ih =>
    simp only [alookup] at h ⊢
    split at h
    · rw [if_pos ‹p.1 = k›]
      exact h
    · rw [if_neg ‹¬ p.1 = k›]
      exact ih h

theorem alookup_eq_none_iff {α β : Type} [DecidableEq α]
    {l : List (α × β)} {k : α} :
    alookup l k = none ↔ k ∉ l.map Prod.fst := by
  induction l with
  | nil => simp [alookup]
  | cons p rest ih =>
    simp only [alookup, List.map_cons, List.mem_cons]
    split
    · constructor
      · intro h
        exact absurd h (by simp)
      · intro h
        exact absurd (Or.inl ‹p.1 = k›.symm) h
    · rw [ih]
      constructor
      · intro h hk
        rcases hk with h1 | h2
        · exact ‹¬ p.1 = k› h1.symm
        · exact h h2
      · intro h h2
        exact h (Or.inr h2)

theorem alookup_mem {α β : Type} [DecidableEq α]
    {l : List (α × β)} {k : α} {v : β}
    (h : alookup l k = some v) : (k, v) ∈ l := by
  induction l with
  | nil => simp [alookup] at h
  | cons p rest ih =>
    obtain ⟨pk, pv⟩ := p
    simp only [alookup] at h
    split at h
    · simp only [Option.some.injEq] at h
      simp only [List.mem_cons]
      left
      simp_all
    · exact List.mem_cons_of_mem _ (ih h)

theorem alookup_isSome_iff {α β : Type} [DecidableEq α]
    {l : List (α × β)} {k : α} :
    (alookup l k).isSome ↔ k ∈ l.map Prod.fst := by
  constructor
  · intro h
    by_contra hk
    rw [← alookup_eq_none_iff] at hk
    rw [hk] at h
    simp at h
  · intro h
    cases hl : alookup l k with
    | none => exact absurd h (alookup_eq_none_iff.mp hl)
    | some v => simp

/-! ## Branch equations for the add operations -/

theorem add_student_hit {s : StarSchemaModel} {email : String} {id : Nat}
    (h : alookup s.student_email_index email = some id) (name : String)
    (grade_level : Int) : add_student s email name grade_level = (id, s) := by
  unfold add_student
  rw [h]

theorem add_student_miss {s : StarSchemaModel} {email : String}
    (h : alookup s.student_email_index email = none) (name : String)
    (grade_level : Int) :
    add_student s email name grade_level =
      (s.student_counter,
       { s with
         dim_students := s.dim_students ++
           [(s.student_counter,
             { student_id := s.student_counter, email := email, name := name,
               grade_level := grade_level })]
         student_email_index :=
           s.student_email_index ++ [(email, s.student_counter)]
         student_counter := s.student_counter + 1 }) := by
  unfold add_student
  rw [h]

theorem add_activity_hit {s : StarSchemaModel} {activity_name : String} {id : Nat}
    (h : alookup s.activity_name_index activity_name = some id)
    (description schedule : String) (max_participants : Int) :
    add_activity s activity_name description schedule max_participants = (id, s) := by
  unfold add_activity
  rw [h]

theorem add_activity_miss {s : StarSchemaModel} {activity_name : String}
    (h : alookup s.activity_name_index activity_name = none)
    (description schedule : String) (max_participants : Int) :
    add_activity s activity_name description schedule max_participants =
      (s.activity_counter,
       { s with
         dim_activities := s.dim_activities ++
           [(s.activity_counter,
             { activity_id := s.activity_counter, activity_name := activity_name,
               description := description, schedule := schedule,
               max_participants := max_participants })]
         activity_name_index :=
           s.activity_name_index ++ [(activity_name, s.activity_counter)]
         activity_counter := s.activity_counter + 1 }) := by
  unfold add_activity
  rw [h]

theorem add_date_hit {s : StarSchemaModel} {date : Datetime} {id : Nat}
    (h : alookup s.date_string_index date.dateStr = some id) :
    add_date s date = (id, s) := by
  simp only [add_date]
  rw [h]

theorem add_date_miss {s : StarSchemaModel} {date : Datetime}
    (h : alookup s.date_string_index date.dateStr = none) :
    add_date s date =
      (s.date_counter,
       { s with
         dim_dates := s.dim_dates ++
           [(s.date_counter,
             { date_id := s.date_counter, date := date.dateStr, day := date.day,
               month := date.month, year := date.year,
               weekday := date.weekdayName })]
         date_string_index :=
           s.date_string_index ++ [(date.dateStr, s.date_counter)]
         date_counter := s.date_counter + 1 }) := by
  simp only [add_date]
  rw [h]

theorem inv_empty : StoreInv emptyStore := by
  constructor <;> simp [emptyStore]

theorem range'_concat_succ (n : Nat) :
    List.range' 1 n ++ [n + 1] = List.range' 1 (n + 1) := by
  have h1 : List.range' (1 + n) 1 = [n + 1] := by
    simp [List.range'_succ, Nat.add_comm]
  rw [← h1, List.range'_append_1, Nat.add_comm]

/-- Appending the next key keeps a table's key list in canonical form. -/
theorem keys_concat {l : List Nat} {len : Nat} (h : l = List.range' 1 len) {n : Nat}
    (hn : n = len + 1) : l ++ [n] = List.range' 1 (len + 1) := by
  subst h
  subst hn
  exact range'_concat_succ len

/-- Appending one entry with a fresh natural key keeps the key projection
nodup. -/
theorem nodup_concat_of_not_mem {l : List String} (h : l.Nodup) {k : String}
    (hk : k ∉ l) : (l ++ [k]).Nodup := by
  rw [List.nodup_append]
  refine ⟨h, by simp, ?_⟩
  intro a ha hb
  simp only [List.mem_singleton] at hb
  subst hb
  exact hk ha

theorem inv_add_student (s : StarSchemaModel) (email name : String)
    (grade_level : Int) (hs : StoreInv s) :
    StoreInv (add_student s email name grade_level).2 := by
  cases hlook : alookup s.student_email_index email with
  | some id =>
    rw [add_student_hit hlook]
    exact hs
  | none =>
    rw [add_student_miss hlook]
    have hmem : email ∉ s.dim_students.map (fun p => p.2.email) := by
      have h0 := alookup_eq_none_iff.mp hlook
      rw [hs.students_index, List.map_map] at h0
      simpa [Function.comp] using h0
    refine ⟨?_, ?_, ?_, ?_, ?_, hs.activities_keys, hs.activities_counter,
      hs.activities_idfield, hs.activities_index, hs.activities_names_nodup,
      hs.dates_keys, hs.dates_counter, hs.dates_idfield, hs.dates_index,
      hs.dates_strings_nodup, hs.facts_keys, hs.facts_counter,
      hs.facts_idfield, ?_⟩
    · simpa using keys_concat hs.students_keys hs.students_counter
    · simp [hs.students_counter]
    · intro p hp
      rcases List.mem_append.mp hp with h1 | h2
      · exact hs.students_idfield p h1
      · simp only [List.mem_singleton] at h2
        subst h2
        rfl
    · simp only [List.map_append, List.map_cons, List.map_nil]
      rw [hs.students_index]
    · simp only [List.map_append, List.map_cons, List.map_nil]
      exact nodup_concat_of_not_mem hs.students_emails_nodup hmem
    · intro p hp
      rcases hs.facts_fk p hp with ⟨h1, h2, h3⟩
      refine ⟨?_, h2, h3⟩
      simp only [List.map_append]
      exact List.mem_append_left _ h1

theorem inv_add_activity (s : StarSchemaModel)
    (activity_name description schedule : String) (max_participants : Int)
    (hs : StoreInv s) :
    StoreInv (add_activity s activity_name description schedule max_participants).2 := by
  cases hlook : alookup s.activity_name_index activity_name with
  | some id =>
    rw [add_activity_hit hlook]
    exact hs
  | none =>
    rw [add_activity_miss hlook]
    have hmem : activity_name ∉ s.dim_activities.map (fun p => p.2.activity_name) := by
      have h0 := alookup_eq_none_iff.mp hlook
      rw [hs.activities_index, List.map_map] at h0
      simpa [Function.comp] using h0
    refine ⟨hs.students_keys, hs.students_counter, hs.students_idfield,
      hs.students_index, hs.students_emails_nodup, ?_, ?_, ?_, ?_, ?_,
      hs.dates_keys, hs.dates_counter, hs.dates_idfield, hs.dates_index,
      hs.dates_strings_nodup, hs.facts_keys, hs.facts_counter,
      hs.facts_idfield, ?_⟩
    · simpa using keys_concat hs.activities_keys hs.activities_counter
    · simp [hs.activities_counter]
    · intro p hp
      rcases List.mem_append.mp hp with h1 | h2
      · exact hs.activities_idfield p h1
      · simp only [List.mem_singleton] at h2
        subst h2
        rfl
    · simp only [List.map_append, List.map_cons, List.map_nil]
      rw [hs.activities_index]
    · simp only [List.map_append, List.map_cons, List.map_nil]
      exact nodup_concat_of_not_mem hs.activities_names_nodup hmem
    · intro p hp
      rcases hs.facts_fk p hp with ⟨h1, h2, h3⟩
      refine ⟨h1, ?_, h3⟩
      simp only [List.map_append]
      exact List.mem_append_left _ h2

theorem inv_add_date (s : StarSchemaModel) (date : Datetime) (hs : StoreInv s) :
    StoreInv (add_date s date).2 := by
  cases hlook : alookup s.date_string_index date.dateStr with
  | some id =>
    rw [add_date_hit hlook]
    exact hs
  | none =>
    rw [add_date_miss hlook]
    have hmem : date.dateStr ∉ s.dim_dates.map (fun p => p.2.date) := by
      have h0 := alookup_eq_none_iff.mp hlook
      rw [hs.dates_index, List.map_map] at h0
      simpa [Function.comp] using h0
    refine ⟨hs.students_keys, hs.students_counter, hs.students_idfield,
      hs.students_index, hs.students_emails_nodup, hs.activities_keys,
      hs.activities_counter, hs.activities_idfield, hs.activities_index,
      hs.activities_names_nodup, ?_, ?_, ?_, ?_, ?_, hs.facts_keys,
      hs.facts_counter, hs.facts_idfield, ?_⟩
    · simpa using keys_concat hs.dates_keys hs.dates_counter
    · simp [hs.dates_counter]
    · intro p hp
      rcases List.mem_append.mp hp with h1 | h2
      · exact hs.dates_idfield p h1
      · simp only [List.mem_singleton] at h2
        subst h2
        rfl
    · simp only [List.map_append, List.map_cons, List.map_nil]
      rw [hs.dates_index]
    · simp only [List.map_append, List.map_cons, List.map_nil]
      exact nodup_concat_of_not_mem hs.dates_strings_nodup hmem
    · intro p hp
      rcases hs.facts_fk p hp with ⟨h1, h2, h3⟩
      refine ⟨h1, h2, ?_⟩
      simp only [List.map_append]
      exact List.mem_append_left _ h3

/-- A hit in the email index points at a key of `dim_students`. -/
theorem index_val_mem_students {s : StarSchemaModel} (hs : StoreInv s)
    {e : String} {id : Nat} (h : alookup s.student_email_index e = some id) :
    id ∈ s.dim_students.map Prod.fst := by
  have hm := alookup_mem h
  rw [hs.students_index] at hm
  obtain ⟨p, hp, hpe⟩ := List.mem_map.mp hm
  have : p.1 = id := congrArg Prod.snd hpe
  exact List.mem_map.mpr ⟨p, hp, this⟩

/-- A hit in the activity-name index points at a key of `dim_activities`. -/
theorem index_val_mem_activities {s : StarSchemaModel} (hs : StoreInv s)
    {a : String} {id : Nat} (h : alookup s.activity_name_index a = some id) :
    id ∈ s.dim_activities.map Prod.fst := by
  have hm := alookup_mem h
  rw [hs.activities_index] at hm
  obtain ⟨p, hp, hpe⟩ := List.mem_map.mp hm
  have : p.1 = id := congrArg Prod.snd hpe
  exact List.mem_map.mpr ⟨p, hp, this⟩

/-- A hit in the date-string index points at a key of `dim_dates`. -/
theorem index_val_mem_dates {s : StarSchemaModel} (hs : StoreInv s)
    {d : String} {id : Nat} (h : alookup s.date_string_index d = some id) :
    id ∈ s.dim_dates.map Prod.fst := by
  have hm := alookup_mem h
  rw [hs.dates_index] at hm
  obtain ⟨p, hp, hpe⟩ := List.mem_map.mp hm
  have : p.1 = id := congrArg Prod.snd hpe
  exact List.mem_map.mpr ⟨p, hp, this⟩

/-- In an invariant-satisfying store, surrogate keys are never 0. -/
theorem key_pos_of_mem_students {s : StarSchemaModel} (hs : StoreInv s)
    {id : Nat} (h : id ∈ s.dim_students.map Prod.fst) : 1 ≤ id := by
  rw [hs.students_keys] at h
  exact (List.mem_range'_1.mp h).1

theorem key_pos_of_mem_activities {s : StarSchemaModel} (hs : StoreInv s)
    {id : Nat} (h : id ∈ s.dim_activities.map Prod.fst) : 1 ≤ id := by
  rw [hs.activities_keys] at h
  exact (List.mem_range'_1.mp h).1

/-- Frame: `add_date` only touches the date table, the date index and the date
counter. -/
theorem add_date_frame (s : StarSchemaModel) (date : Datetime) :
    (add_date s date).2.dim_students = s.dim_students ∧
    (add_date s date).2.dim_activities = s.dim_activities ∧
    (add_date s date).2.fact_signups = s.fact_signups ∧
    (add_date s date).2.student_counter = s.student_counter ∧
    (add_date s date).2.activity_counter = s.activity_counter ∧
    (add_date s date).2.fact_counter = s.fact_counter ∧
    (add_date s date).2.student_email_index = s.student_email_index ∧
    (add_date s date).2.activity_name_index = s.activity_name_index := by
  cases hlook : alookup s.date_string_index date.dateStr with
  | none =>
    rw [add_date_miss hlook]
    exact ⟨rfl, rfl, rfl, rfl, rfl, rfl, rfl, rfl⟩
  | some id =>
    rw [add_date_hit hlook]
    exact ⟨rfl, rfl, rfl, rfl, rfl, rfl, rfl, rfl⟩

/-- Effect: `add_date` leaves the date table unchanged (dedup hit) or appends exactly
one row (miss). -/
theorem add_date_dates (s : StarSchemaModel) (date : Datetime) :
    (add_date s date).2.dim_dates = s.dim_dates ∨
    ∃ row, (add_date s date).2.dim_dates = s.dim_dates ++ [row] := by
  cases hlook : alookup s.date_string_index date.dateStr with
  | none =>
    rw [add_date_miss hlook]
    exact Or.inr ⟨_, rfl⟩
  | some id =>
    rw [add_date_hit hlook]
    exact Or.inl rfl

/-- The id returned by `add_date` is a key of the resulting date table. -/
theorem add_date_id_mem (s : StarSchemaModel) (date : Datetime)
    (hs : StoreInv s) :
    (add_date s date).1 ∈ (add_date s date).2.dim_dates.map Prod.fst := by
  cases hlook : alookup s.date_string_index date.dateStr with
  | none =>
    rw [add_date_miss hlook]
    simp
  | some id =>
    rw [add_date_hit hlook]
    exact index_val_mem_dates hs hlook

theorem inv_add_signup (s : StarSchemaModel) (student_email activity_name : String)
    (signup_date : Datetime) (hs : StoreInv s) :
    StoreInv (add_signup s student_email activity_name signup_date).2 := by
  unfold add_signup
  cases hse : alookup s.student_email_index student_email with
  | none => exact hs
  | some student_id =>
    cases han : alookup s.activity_name_index activity_name with
    | none => exact hs
    | some activity_id =>
      simp only
      have hinv1 : StoreInv (add_date s signup_date).2 := inv_add_date s signup_date hs
      obtain ⟨hfs, hfa, hff, hcs, hca, hcf, his, hia⟩ := add_date_frame s signup_date
      set s1 := (add_date s signup_date).2 with hs1
      refine ⟨hinv1.students_keys, hinv1.students_counter, hinv1.students_idfield,
        hinv1.students_index, hinv1.students_emails_nodup, hinv1.activities_keys,
        hinv1.activities_counter, hinv1.activities_idfield, hinv1.activities_index,
        hinv1.activities_names_nodup, hinv1.dates_keys, hinv1.dates_counter,
        hinv1.dates_idfield, hinv1.dates_index, hinv1.dates_strings_nodup,
        ?_, ?_, ?_, ?_⟩
      · simpa using keys_concat hinv1.facts_keys hinv1.facts_counter
      · simp [hinv1.facts_counter]
      · intro p hp
        rcases List.mem_append.mp hp with h1 | h2
        · exact hinv1.facts_idfield p h1
        · simp only [List.mem_singleton] at h2
          subst h2
          rfl
      · intro p hp
        rcases List.mem_append.mp hp with h1 | h2
        · exact hinv1.facts_fk p h1
        · simp only [List.mem_singleton] at h2
          subst h2
          refine ⟨?_, ?_, ?_⟩
          · rw [hfs]
            exact index_val_mem_students hs hse
          · rw [hfa]
            exact index_val_mem_activities hs han
          · exact add_date_id_mem s signup_date hs

/-- Every reachable store satisfies the full invariant. -/
theorem reachable_inv {s : StarSchemaModel} (h : Reachable s) : StoreInv s := by
  induction h with
  | empty => exact inv_empty
  | student email name grade_level _ ih => exact inv_add_student _ email name grade_level ih
  | activity a d sch m _ ih => exact inv_add_activity _ a d sch m ih
  | date d _ ih => exact inv_add_date _ d ih
  | signup e a d _ ih => exact inv_add_signup _ e a d ih

theorem runAdds_append (l₁ l₂ : List (String × String × Int)) (s : StarSchemaModel) :
    runAdds (l₁ ++ l₂) s =
      ((runAdds l₁ s).1 ++ (runAdds l₂ (runAdds l₁ s).2).1,
       (runAdds l₂ (runAdds l₁ s).2).2) := by
  induction l₁ generalizing s with
  | nil => simp [runAdds]
  | cons c rest ih =>
    simp only [List.cons_append, runAdds, List.append_eq]
    rw [ih]

theorem mem_firstOccs {e : String} {l : List String} :
    e ∈ firstOccs l ↔ e ∈ l := by
  induction l with
  | nil => simp [firstOccs]
  | cons x rest ih =>
    simp only [firstOccs, List.mem_cons, List.mem_filter, ih]
    by_cases hx : e = x
    · simp [hx]
    · simp [hx]

theorem nodup_firstOccs (l : List String) : (firstOccs l).Nodup := by
  induction l with
  | nil => simp [firstOccs]
  | cons x rest ih =>
    simp only [firstOccs]
    rw [List.nodup_cons]
    constructor
    · intro hmem
      have := (List.mem_filter.mp hmem).2
      simp at this
    · exact List.Nodup.filter _ ih

theorem firstOccs_concat (l : List String) (e : String) :
    firstOccs (l ++ [e]) =
      if e ∈ l then firstOccs l else firstOccs l ++ [e] := by
  induction l with
  | nil => simp [firstOccs]
  | cons x rest ih =>
    have h1 : firstOccs ((x :: rest) ++ [e]) =
        x :: (firstOccs (rest ++ [e])).filter (fun y => y ≠ x) := by
      rw [List.cons_append]
      rfl
    rw [h1, ih]
    by_cases hmem : e ∈ rest
    · rw [if_pos hmem, if_pos (List.mem_cons_of_mem x hmem)]
      rfl
    · by_cases hx : e = x
      · subst hx
        rw [if_neg hmem, if_pos (List.mem_cons_self e rest)]
        show e :: (firstOccs rest ++ [e]).filter (fun y => y ≠ e) = firstOccs (e :: rest)
        rw [List.filter_append]
        simp [firstOccs]
      · rw [if_neg hmem, if_neg (by simp [hx, hmem] : ¬ e ∈ x :: rest)]
        show x :: (firstOccs rest ++ [e]).filter (fun y => y ≠ x) = firstOccs (x :: rest) ++ [e]
        rw [List.filter_append]
        simp [firstOccs, hx]

theorem posOf_append_left {e : String} {l₁ : List String} (l₂ : List String)
    (h : e ∈ l₁) : posOf e (l₁ ++ l₂) = posOf e l₁ := by
  induction l₁ with
  | nil => simp at h
  | cons x rest ih =>
    simp only [List.cons_append, posOf]
    by_cases hx : x = e
    · simp [hx]
    · rcases List.mem_cons.mp h with h1 | h2
      · exact absurd h1.symm hx
      · simp [hx, ih h2]

theorem posOf_concat_self {e : String} {l : List String} (h : e ∉ l) :
    posOf e (l ++ [e]) = l.length := by
  induction l with
  | nil => simp [posOf]
  | cons x rest ih =>
    have hx : x ≠ e := fun hc => h (hc ▸ List.mem_cons_self x rest)
    have he : e ∉ rest := fun hc => h (List.mem_cons_of_mem x hc)
    show (if x = e then 0 else posOf e (rest ++ [e]) + 1) = (x :: rest).length
    rw [if_neg hx, ih he]
    rfl

theorem posOf_map_self {l : List String} (h : l.Nodup) :
    l.map (fun e => posOf e l + 1) = List.range' 1 l.length := by
  induction l with
  | nil => simp
  | cons x rest ih =>
    rw [List.nodup_cons] at h
    have hcongr : rest.map (fun e => posOf e (x :: rest) + 1) =
        rest.map (fun e => posOf e rest + 1 + 1) := by
      apply List.map_congr_left
      intro a ha
      have hx : x ≠ a := fun hc => h.1 (hc ▸ ha)
      show (if x = a then 0 else posOf a rest + 1) + 1 = posOf a rest + 1 + 1
      rw [if_neg hx]
    have hhead : posOf x (x :: rest) + 1 = 1 := by
      show (if x = x then 0 else posOf x rest + 1) + 1 = 1
      rw [if_pos rfl]
    have h2 : rest.map (fun e => posOf e rest + 1 + 1) =
        (rest.map (fun e => posOf e rest + 1)).map (fun n => 1 + n) := by
      rw [List.map_map]
      apply List.map_congr_left
      intro a _
      show posOf a rest + 1 + 1 = 1 + (posOf a rest + 1)
      omega
    simp only [List.map_cons, List.length_cons, List.range'_succ]
    rw [hhead, hcongr, h2, ih h.2, List.map_add_range']

theorem withIds_concat (l : List String) (e : String) (b : Nat) :
    withIds (l ++ [e]) b = withIds l b ++ [(e, b + l.length)] := by
  induction l generalizing b with
  | nil => simp [withIds]
  | cons x rest ih =>
    show (x, b) :: withIds (rest ++ [e]) (b + 1) =
      ((x, b) :: withIds rest (b + 1)) ++ [(e, b + (x :: rest).length)]
    rw [ih (b + 1), List.cons_append]
    have hlen : b + 1 + rest.length = b + (x :: rest).length := by
      rw [List.length_cons]
      omega
    rw [hlen]

theorem alookup_withIds_of_not_mem {e : String} {l : List String} (b : Nat)
    (h : e ∉ l) : alookup (withIds l b) e = none := by
  induction l generalizing b with
  | nil => rfl
  | cons x rest ih =>
    simp only [withIds, alookup]
    rw [if_neg (fun hc : x = e => h (hc ▸ List.mem_cons_self x rest))]
    exact ih (b + 1) (fun hc => h (List.mem_cons_of_mem x hc))

theorem alookup_withIds_of_mem {e : String} {l : List String} (b : Nat)
    (h : e ∈ l) : alookup (withIds l b) e = some (b + posOf e l) := by
  induction l generalizing b with
  | nil => simp at h
  | cons x rest ih =>
    simp only [withIds, alookup, posOf]
    by_cases hx : x = e
    · simp [hx]
    · rcases List.mem_cons.mp h with h1 | h2
      · exact absurd h1.symm hx
      · rw [if_neg hx, if_neg hx, ih (b + 1) h2]
        congr 1
        omega


/-- Characterization of a transcript of `add_student` calls run from the
fresh store: each call returns the 1-based position of its email's first
occurrence among the distinct emails, the email index enumerates the distinct
emails in first-occurrence order with ids from 1, and the counter is one past
the number of distinct emails. -/
theorem runAdds_characterization (calls : List (String × String × Int)) :
    (runAdds calls emptyStore).1 =
      (calls.map (fun c' => c'.1)).map
        (fun e => posOf e (firstOccs (calls.map (fun c' => c'.1))) + 1) ∧
    (runAdds calls emptyStore).2.student_email_index =
      withIds (firstOccs (calls.map (fun c' => c'.1))) 1 ∧
    (runAdds calls emptyStore).2.student_counter =
      (firstOccs (calls.map (fun c' => c'.1))).length + 1 := by
  induction calls using List.reverseRecOn with
  | nil => exact ⟨rfl, rfl, rfl⟩
  | append_singleton l c ih =>
    obtain ⟨ihres, ihidx, ihcnt⟩ := ih
    have hmap : (l ++ [c]).map (fun c' => c'.1) = l.map (fun c' => c'.1) ++ [c.1] := by
      simp
    have hrun1 : ∀ t : StarSchemaModel,
        (runAdds [c] t).1 = [(add_student t c.1 c.2.1 c.2.2).1] := fun t => rfl
    have hrun2 : ∀ t : StarSchemaModel,
        (runAdds [c] t).2 = (add_student t c.1 c.2.1 c.2.2).2 := fun t => rfl
    rw [runAdds_append l [c] emptyStore, hmap, firstOccs_concat, hrun1, hrun2]
    by_cases hmem : c.1 ∈ l.map (fun c' => c'.1)
    · rw [if_pos hmem]
      have hD : c.1 ∈ firstOccs (l.map (fun c' => c'.1)) := mem_firstOccs.mpr hmem
      have hlook : alookup (runAdds l emptyStore).2.student_email_index c.1 =
          some (1 + posOf c.1 (firstOccs (l.map (fun c' => c'.1)))) := by
        rw [ihidx]
        exact alookup_withIds_of_mem 1 hD
      have hhit := add_student_hit hlook c.2.1 c.2.2
      refine ⟨?_, ?_, ?_⟩
      · rw [List.map_append, ← ihres, hhit]
        simp [Nat.add_comm]
      · rw [hhit]
        exact ihidx
      · rw [hhit]
        exact ihcnt
    · rw [if_neg hmem]
      have hD : c.1 ∉ firstOccs (l.map (fun c' => c'.1)) :=
        fun hc => hmem (mem_firstOccs.mp hc)
      have hlook : alookup (runAdds l emptyStore).2.student_email_index c.1 = none := by
        rw [ihidx]
        exact alookup_withIds_of_not_mem 1 hD
      have hmiss := add_student_miss hlook c.2.1 c.2.2
      refine ⟨?_, ?_, ?_⟩
      · rw [List.map_append, hmiss]
        have hcongr : (l.map (fun c' => c'.1)).map
            (fun e => posOf e (firstOccs (l.map (fun c' => c'.1)) ++ [c.1]) + 1) =
            (l.map (fun c' => c'.1)).map
            (fun e => posOf e (firstOccs (l.map (fun c' => c'.1))) + 1) := by
          apply List.map_congr_left
          intro a ha
          rw [posOf_append_left _ (mem_firstOccs.mpr ha)]
        rw [hcongr, ← ihres]
        simp only [List.map_cons, List.map_nil]
        congr 1
        rw [posOf_concat_self hD, ihcnt]
      · rw [hmiss]
        show (runAdds l emptyStore).2.student_email_index ++
            [(c.1, (runAdds l emptyStore).2.student_counter)] =
          withIds (firstOccs (l.map (fun c' => c'.1)) ++ [c.1]) 1
        rw [withIds_concat, ihidx, ihcnt, Nat.add_comm
          (firstOccs (l.map (fun c' => c'.1))).length 1]
      · rw [hmiss]
        show (runAdds l emptyStore).2.student_counter + 1 =
          (firstOccs (l.map (fun c' => c'.1)) ++ [c.1]).length + 1
        rw [ihcnt, List.length_append]
        simp

/-! ## Branch equations for `add_signup` and a counting helper -/

theorem add_signup_unknown_student {s : StarSchemaModel} {student_email : String}
    (h : alookup s.student_email_index student_email = none)
    (activity_name : String) (signup_date : Datetime) :
    add_signup s student_email activity_name signup_date =
      (.error (.studentNotFound student_email), s) := by
  unfold add_signup
  rw [h]

theorem add_signup_unknown_activity {s : StarSchemaModel}
    {student_email activity_name : String} {student_id : Nat}
    (h1 : alookup s.student_email_index student_email = some student_id)
    (h2 : alookup s.activity_name_index activity_name = none)
    (signup_date : Datetime) :
    add_signup s student_email activity_name signup_date =
      (.error (.activityNotFound activity_name), s) := by
  unfold add_signup
  rw [h1, h2]

theorem add_signup_ok {s : StarSchemaModel}
    {student_email activity_name : String} {student_id activity_id : Nat}
    (h1 : alookup s.student_email_index student_email = some student_id)
    (h2 : alookup s.activity_name_index activity_name = some activity_id)
    (signup_date : Datetime) :
    add_signup s student_email activity_name signup_date =
      (.ok (add_date s signup_date).2.fact_counter,
       { (add_date s signup_date).2 with
         fact_signups := (add_date s signup_date).2.fact_signups ++
           [((add_date s signup_date).2.fact_counter,
             { fact_signup_id := (add_date s signup_date).2.fact_counter,
               student_id := student_id, activity_id := activity_id,
               date_id := (add_date s signup_date).1,
               signup_timestamp := signup_date.isoformat })]
         fact_counter := (add_date s signup_date).2.fact_counter + 1 }) := by
  unfold add_signup
  rw [h1, h2]

/-- If the projections of a list's elements under `f` are pairwise distinct
and some element projects to `e`, then exactly one does. -/
theorem filter_length_one_of_nodup_map {α β : Type} [DecidableEq β] (f : α → β)
    {l : List α} (hn : (l.map f).Nodup) {e : β} (hex : ∃ p ∈ l, f p = e) :
    (l.filter (fun p => f p = e)).length = 1 := by
  induction l with
  | nil => simp at hex
  | cons x xs ih =>
    rw [List.map_cons, List.nodup_cons] at hn
    by_cases hfx : f x = e
    · have hnil : xs.filter (fun p => f p = e) = [] := by
        rw [List.filter_eq_nil_iff]
        intro p hp hpe
        simp only [decide_eq_true_eq] at hpe
        exact hn.1 (List.mem_map.mpr ⟨p, hp, hpe.trans hfx.symm⟩)
      rw [List.filter_cons, if_pos (by simpa using hfx)]
      simp [hnil]
    · rw [List.filter_cons, if_neg (by simpa using hfx)]
      obtain ⟨p, hp, hpe⟩ := hex
      rcases List.mem_cons.mp hp with h1 | h2
      · exact absurd (h1 ▸ hpe) hfx
      · exact ih hn.2 ⟨p, h2, hpe⟩

/-- After `add_date`, the day's string is indexed and maps to the returned id. -/
theorem add_date_index_lookup (s : StarSchemaModel) (t : Datetime) :
    alookup (add_date s t).2.date_string_index t.dateStr = some (add_date s t).1 := by
  cases hlook : alookup s.date_string_index t.dateStr with
  | some id =>
    rw [add_date_hit hlook]
    exact hlook
  | none =>
    rw [add_date_miss hlook]
    show alookup (s.date_string_index ++ [(t.dateStr, s.date_counter)]) t.dateStr = _
    rw [alookup_append_of_none _ hlook]
    simp [alookup]

/-- A second `add_date` on the same calendar day is a pure no-op returning
the id of the first. -/
theorem add_date_dedup (s : StarSchemaModel) {t1 t2 : Datetime}
    (h : t1.dateStr = t2.dateStr) :
    add_date (add_date s t1).2 t2 = ((add_date s t1).1, (add_date s t1).2) := by
  have hl := add_date_index_lookup s t1
  rw [h] at hl
  exact add_date_hit hl

/-- Under the invariant, an email-index hit names an existing student row
whose key is the indexed id and whose email is the looked-up key. -/
theorem index_row_exists_students {s : StarSchemaModel} (hs : StoreInv s)
    {e : String} {id : Nat} (h : alookup s.student_email_index e = some id) :
    ∃ p ∈ s.dim_students, p.1 = id ∧ p.2.email = e := by
  have hm := alookup_mem h
  rw [hs.students_index] at hm
  obtain ⟨p, hp, hpe⟩ := List.mem_map.mp hm
  exact ⟨p, hp, congrArg Prod.snd hpe, congrArg Prod.fst hpe⟩

theorem index_row_exists_activities {s : StarSchemaModel} (hs : StoreInv s)
    {a : String} {id : Nat} (h : alookup s.activity_name_index a = some id) :
    ∃ p ∈ s.dim_activities, p.1 = id ∧ p.2.activity_name = a := by
  have hm := alookup_mem h
  rw [hs.activities_index] at hm
  obtain ⟨p, hp, hpe⟩ := List.mem_map.mp hm
  exact ⟨p, hp, congrArg Prod.snd hpe, congrArg Prod.fst hpe⟩

/-- In an association list with pairwise-distinct keys, a key determines
its value. -/
theorem mem_unique_of_nodup_keys {α β : Type} {l : List (α × β)}
    (h : (l.map Prod.fst).Nodup) {k : α} {v w : β}
    (h1 : (k, v) ∈ l) (h2 : (k, w) ∈ l) : v = w := by
  induction l with
  | nil => simp at h1
  | cons x xs ih =>
    rw [List.map_cons, List.nodup_cons] at h
    rcases List.mem_cons.mp h1 with ha | ha <;>
      rcases List.mem_cons.mp h2 with hb | hb
    · rw [← ha] at hb
      exact (Prod.mk.injEq _ _ _ _).mp hb.symm |>.2
    · have hk : k = x.1 := congrArg Prod.fst ha
      exact absurd (List.mem_map.mpr ⟨(k, w), hb, hk⟩) h.1
    · have hk : k = x.1 := congrArg Prod.fst hb
      exact absurd (List.mem_map.mpr ⟨(k, v), ha, hk⟩) h.1
    · exact ih h.2 ha hb

/-- The three bijection facts between a dimension table and its natural-key
index, abstract in the entity type. -/
theorem index_bijection {γ : Type} {table : List (Nat × γ)}
    {index : List (String × Nat)} {natkey : γ → String}
    (hidx : index = table.map (fun p => (natkey p.2, p.1)))
    (hkeys : (table.map Prod.fst).Nodup)
    (hnames : (table.map (fun p => natkey p.2)).Nodup) :
    (∀ k ∈ table.map Prod.fst, (index.filter (fun q => q.2 = k)).length = 1) ∧
    (∀ q ∈ index, ∃ p ∈ table, p.1 = q.2 ∧ natkey p.2 = q.1) ∧
    (∀ p ∈ table, (index.filter (fun q => q.1 = natkey p.2)).length = 1) := by
  have hsnd : index.map Prod.snd = table.map Prod.fst := by
    rw [hidx, List.map_map]
    rfl
  have hfst : index.map Prod.fst = table.map (fun p => natkey p.2) := by
    rw [hidx, List.map_map]
    rfl
  refine ⟨?_, ?_, ?_⟩
  · intro k hk
    obtain ⟨p, hp, hpk⟩ := List.mem_map.mp hk
    refine filter_length_one_of_nodup_map Prod.snd (hsnd ▸ hkeys) ?_
    exact ⟨(natkey p.2, p.1), hidx ▸ List.mem_map.mpr ⟨p, hp, rfl⟩, hpk⟩
  · intro q hq
    rw [hidx] at hq
    obtain ⟨p, hp, hpe⟩ := List.mem_map.mp hq
    exact ⟨p, hp, congrArg Prod.snd hpe, congrArg Prod.fst hpe⟩
  · intro p hp
    refine filter_length_one_of_nodup_map Prod.fst (hfst ▸ hnames) ?_
    exact ⟨(natkey p.2, p.1), hidx ▸ List.mem_map.mpr ⟨p, hp, rfl⟩, rfl⟩

theorem wStore_reachable : Reachable wStore :=
  Reachable.activity _ _ _ _ (Reachable.activity _ _ _ _
    (Reachable.student _ _ _ (Reachable.student _ _ _ Reachable.empty)))

/-! ## The claims -/

/-- Claim C1 — Dedup idempotence with first-write-wins: in any reachable store,
if `e` is already in the student index with id `id`, then `add_student`
with any name/grade returns `(id, s)` — the id of the unique existing row for
`e` — changing nothing (no new row, no counter advance, stored name and
grade untouched since the whole state is returned unchanged); likewise for
`add_activity` on `activity_name`; and a second `add_date` on the same
calendar day (any time-of-day) returns the first call's id and state. -/
theorem claim_C1 (s : StarSchemaModel) (hr : Reachable s) :
    (∀ e id name grade_level, alookup s.student_email_index e = some id →
      add_student s e name grade_level = (id, s) ∧
      (s.dim_students.filter (fun p => p.2.email = e)).length = 1 ∧
      ∃ p ∈ s.dim_students, p.1 = id ∧ p.2.email = e) ∧
    (∀ a id description schedule max_participants,
      alookup s.activity_name_index a = some id →
      add_activity s a description schedule max_participants = (id, s) ∧
      (s.dim_activities.filter (fun p => p.2.activity_name = a)).length = 1 ∧
      ∃ p ∈ s.dim_activities, p.1 = id ∧ p.2.activity_name = a) ∧
    (∀ t1 t2 : Datetime, t1.dateStr = t2.dateStr →
      add_date (add_date s t1).2 t2 = ((add_date s t1).1, (add_date s t1).2)) := by
  have hs := reachable_inv hr
  refine ⟨?_, ?_, ?_⟩
  · intro e id name grade_level h
    obtain ⟨p, hp, hp1, hp2⟩ := index_row_exists_students hs h
    exact ⟨add_student_hit h name grade_level,
      filter_length_one_of_nodup_map _ hs.students_emails_nodup ⟨p, hp, hp2⟩,
      p, hp, hp1, hp2⟩
  · intro a id description schedule max_participants h
    obtain ⟨p, hp, hp1, hp2⟩ := index_row_exists_activities hs h
    exact ⟨add_activity_hit h description schedule max_participants,
      filter_length_one_of_nodup_map _ hs.activities_names_nodup ⟨p, hp, hp2⟩,
      p, hp, hp1, hp2⟩
  · intro t1 t2 h
    exact add_date_dedup s h

theorem claim_C1_witness :
    add_student wStore "a@x.edu" "Z" 12 = (1, wStore) ∧
    (wStore.dim_students.filter (fun p => p.2.email = "a@x.edu")).length = 1 ∧
    add_activity wStore "Chess" "other" "Fri" 99 = (1, wStore) ∧
    add_date (add_date wStore ⟨2024, 1, 1, 9, 0, 0⟩).2 ⟨2024, 1, 1, 23, 59, 59⟩ =
      ((add_date wStore ⟨2024, 1, 1, 9, 0, 0⟩).1,
       (add_date wStore ⟨2024, 1, 1, 9, 0, 0⟩).2) := by
  have h := claim_C1 wStore wStore_reachable
  have h1 := h.1 "a@x.edu" 1 "Z" 12 (by decide)
  have h2 := h.2.1 "Chess" 1 "other" "Fri" 99 (by decide)
  have h3 := h.2.2 ⟨2024, 1, 1, 9, 0, 0⟩ ⟨2024, 1, 1, 23, 59, 59⟩ (by decide)
  exact ⟨h1.1, h1.2.1, h2.1, h3⟩

/-- Claim C2 — Counter monotonicity: running any transcript of `add_student`
calls from the fresh store, every call returns the 1-based first-occurrence
position of its email among the distinct emails, so the ids returned for the
N distinct emails are exactly `1, 2, ..., N` in insertion order (no gaps, no
repeats, duplicates interleaved anywhere) and the final counter is `N + 1`;
in every reachable store the surrogate keys of each of the four entity kinds
are exactly `1, ..., len` in insertion order (strictly positive, strictly
increasing, unique); and a dedup no-op call never advances the counter of
its kind. -/
theorem claim_C2 :
    (∀ calls : List (String × String × Int),
      (runAdds calls emptyStore).1 =
        (calls.map (fun c' => c'.1)).map
          (fun e => posOf e (firstOccs (calls.map (fun c' => c'.1))) + 1) ∧
      (firstOccs (calls.map (fun c' => c'.1))).map
          (fun e => posOf e (firstOccs (calls.map (fun c' => c'.1))) + 1) =
        List.range' 1 (firstOccs (calls.map (fun c' => c'.1))).length ∧
      (runAdds calls emptyStore).2.student_counter =
        (firstOccs (calls.map (fun c' => c'.1))).length + 1) ∧
    (∀ s : StarSchemaModel, Reachable s →
      s.dim_students.map Prod.fst = List.range' 1 s.dim_students.length ∧
      s.dim_activities.map Prod.fst = List.range' 1 s.dim_activities.length ∧
      s.dim_dates.map Prod.fst = List.range' 1 s.dim_dates.length ∧
      s.fact_signups.map Prod.fst = List.range' 1 s.fact_signups.length) ∧
    (∀ (s : StarSchemaModel) (e : String) (id : Nat) name grade_level,
      alookup s.student_email_index e = some id →
      (add_student s e name grade_level).2.student_counter = s.student_counter) ∧
    (∀ (s : StarSchemaModel) (a : String) (id : Nat) d sch m,
      alookup s.activity_name_index a = some id →
      (add_activity s a d sch m).2.activity_counter = s.activity_counter) ∧
    (∀ (s : StarSchemaModel) (t : Datetime) (id : Nat),
      alookup s.date_string_index t.dateStr = some id →
      (add_date s t).2.date_counter = s.date_counter) := by
  refine ⟨?_, ?_, ?_, ?_, ?_⟩
  · intro calls
    obtain ⟨h1, _, h3⟩ := runAdds_characterization calls
    exact ⟨h1, posOf_map_self (nodup_firstOccs _), h3⟩
  · intro s hr
    have hs := reachable_inv hr
    exact ⟨hs.students_keys, hs.activities_keys, hs.dates_keys, hs.facts_keys⟩
  · intro s e id name grade_level h
    rw [add_student_hit h name grade_level]
  · intro s a id d sch m h
    rw [add_activity_hit h d sch m]
  · intro s t id h
    rw [add_date_hit h]

theorem claim_C2_witness :
    (runAdds [("a@x.edu", "A", (9 : Int)), ("b@x.edu", "B", 10),
        ("a@x.edu", "C", 11), ("c@x.edu", "D", 12)] emptyStore).1 = [1, 2, 1, 3] ∧
    wStore.dim_students.map Prod.fst = List.range' 1 wStore.dim_students.length ∧
    (add_student wStore "a@x.edu" "Z" 12).2.student_counter = wStore.student_counter := by
  have h := claim_C2
  refine ⟨?_, (h.2.1 wStore wStore_reachable).1, ?_⟩
  · rw [(h.1 [("a@x.edu", "A", (9 : Int)), ("b@x.edu", "B", 10),
        ("a@x.edu", "C", 11), ("c@x.edu", "D", 12)]).1]
    decide
  · exact h.2.2.1 wStore "a@x.edu" 1 "Z" 12 (by decide)

/-- Claim C3 — `add_signup` error contract: the unknown-student error occurs iff
the email is absent from the student index (so when both lookups would fail
the student error is the one reported, the student check coming first); given
the student resolves, the unknown-activity error occurs iff the activity name
is absent; and any failing call returns the store unchanged (no fact row, no
date row). -/
theorem claim_C3 (s : StarSchemaModel) (e a : String) (t : Datetime) :
    ((add_signup s e a t).1 = .error (.studentNotFound e) ↔
      alookup s.student_email_index e = none) ∧
    ((∃ id, alookup s.student_email_index e = some id) →
      ((add_signup s e a t).1 = .error (.activityNotFound a) ↔
        alookup s.activity_name_index a = none)) ∧
    (∀ err : SignupError, (add_signup s e a t).1 = .error err →
      (add_signup s e a t).2 = s) := by
  cases hse : alookup s.student_email_index e with
  | none =>
    rw [add_signup_unknown_student hse a t]
    refine ⟨by simp [hse], ?_, fun err _ => rfl⟩
    rintro ⟨id, hid⟩
    exact absurd hid (by simp)
  | some sid =>
    cases han : alookup s.activity_name_index a with
    | none =>
      rw [add_signup_unknown_activity hse han t]
      exact ⟨by simp [hse], fun _ => by simp [han], fun err _ => rfl⟩
    | some aid =>
      rw [add_signup_ok hse han t]
      exact ⟨by simp [hse], fun _ => by simp [han], fun err herr =>
        absurd herr (by simp)⟩

theorem claim_C3_witness :
    (add_signup wStore "nobody@x.edu" "Chess" demoT).1 =
      .error (.studentNotFound "nobody@x.edu") ∧
    (add_signup wStore "a@x.edu" "Nope" demoT).1 =
      .error (.activityNotFound "Nope") ∧
    (add_signup wStore "nobody@x.edu" "Chess" demoT).2 = wStore := by
  have h1 := claim_C3 wStore "nobody@x.edu" "Chess" demoT
  have h2 := claim_C3 wStore "a@x.edu" "Nope" demoT
  refine ⟨h1.1.mpr (by decide), (h2.2.1 ⟨1, by decide⟩).mpr (by decide), ?_⟩
  exact h1.2.2 _ (h1.1.mpr (by decide))

/-- Claim C4 — Activity analytics correctness: `get_activity_analytics` returns
one row per activity in dimension-table insertion order, with
`current_signups` the number of fact rows carrying that activity's key and
`spots_left = max_participants - current_signups` as plain (unclamped)
integer subtraction; concretely, an activity with capacity 2 and three
signups is reported with `current_signups = 3`, `spots_left = -1`. -/
theorem claim_C4 :
    (∀ s : StarSchemaModel, get_activity_analytics s =
      s.dim_activities.map (fun p =>
        { activity_name := p.2.activity_name
          description := p.2.description
          schedule := p.2.schedule
          max_participants := p.2.max_participants
          current_signups :=
            (s.fact_signups.map Prod.snd).countP (fun f => f.activity_id = p.1)
          spots_left := p.2.max_participants -
            (((s.fact_signups.map Prod.snd).countP
              (fun f => f.activity_id = p.1) : Nat) : Int) })) ∧
    get_activity_analytics overCap =
      [{ activity_name := "Chess", description := "d", schedule := "Mon",
         max_participants := 2, current_signups := 3, spots_left := -1 }] := by
  constructor
  · intro s
    unfold get_activity_analytics
    apply List.map_congr_left
    intro p _
    rw [List.countP_eq_length_filter]
  · decide

/-- Claim C5 — Referential integrity: in every reachable store each fact row's
three foreign keys are keys of the corresponding dimension tables, and a
successful `add_signup` leaves `dim_students` and `dim_activities` unchanged
(only the date row may be auto-created). -/
theorem claim_C5 (s : StarSchemaModel) (hr : Reachable s) :
    (∀ p ∈ s.fact_signups,
      p.2.student_id ∈ s.dim_students.map Prod.fst ∧
      p.2.activity_id ∈ s.dim_activities.map Prod.fst ∧
      p.2.date_id ∈ s.dim_dates.map Prod.fst) ∧
    (∀ (e a : String) (t : Datetime) (fid : Nat),
      (add_signup s e a t).1 = .ok fid →
      (add_signup s e a t).2.dim_students = s.dim_students ∧
      (add_signup s e a t).2.dim_activities = s.dim_activities) := by
  refine ⟨(reachable_inv hr).facts_fk, ?_⟩
  intro e a t fid hok
  cases hse : alookup s.student_email_index e with
  | none =>
    rw [add_signup_unknown_student hse a t] at hok
    exact absurd hok (by simp)
  | some sid =>
    cases han : alookup s.activity_name_index a with
    | none =>
      rw [add_signup_unknown_activity hse han t] at hok
      exact absurd hok (by simp)
    | some aid =>
      rw [add_signup_ok hse han t]
      obtain ⟨h1, h2, _⟩ := add_date_frame s t
      exact ⟨h1, h2⟩

theorem claim_C5_witness :
    (∀ p ∈ overCap.fact_signups,
      p.2.student_id ∈ overCap.dim_students.map Prod.fst ∧
      p.2.activity_id ∈ overCap.dim_activities.map Prod.fst ∧
      p.2.date_id ∈ overCap.dim_dates.map Prod.fst) ∧
    (add_signup wStore "a@x.edu" "Chess" demoT).2.dim_students = wStore.dim_students := by
  have hoc : Reachable overCap :=
    Reachable.signup _ _ _ (Reachable.signup _ _ _ (Reachable.signup _ _ _
      (Reachable.activity _ _ _ _ (Reachable.student _ _ _ Reachable.empty))))
  refine ⟨(claim_C5 overCap hoc).1, ?_⟩
  exact ((claim_C5 wStore wStore_reachable).2 "a@x.edu" "Chess" demoT 1 (by rfl)).1

/-- Claim C6 — Relationship query semantics: `get_signups_by_student` and
`get_signups_by_activity` return `[]` (no error) when the natural key is
absent from the index, and otherwise the fact rows whose foreign key equals
the resolved surrogate id, filtered from the fact table in insertion order. -/
theorem claim_C6 (s : StarSchemaModel) (hr : Reachable s) :
    (∀ e, alookup s.student_email_index e = none →
      get_signups_by_student s e = []) ∧
    (∀ e id, alookup s.student_email_index e = some id →
      get_signups_by_student s e =
        (s.fact_signups.map Prod.snd).filter (fun f => f.student_id = id)) ∧
    (∀ a, alookup s.activity_name_index a = none →
      get_signups_by_activity s a = []) ∧
    (∀ a id, alookup s.activity_name_index a = some id →
      get_signups_by_activity s a =
        (s.fact_signups.map Prod.snd).filter (fun f => f.activity_id = id)) := by
  have hs := reachable_inv hr
  refine ⟨?_, ?_, ?_, ?_⟩
  · intro e h
    unfold get_signups_by_student
    rw [h]
  · intro e id h
    unfold get_signups_by_student
    rw [h]
    have hpos := key_pos_of_mem_students hs (index_val_mem_students hs h)
    show (if id = 0 then [] else
      (s.fact_signups.map Prod.snd).filter (fun f => f.student_id = id)) = _
    rw [if_neg (show ¬ id = 0 by omega)]
  · intro a h
    unfold get_signups_by_activity
    rw [h]
  · intro a id h
    unfold get_signups_by_activity
    rw [h]
    have hpos := key_pos_of_mem_activities hs (index_val_mem_activities hs h)
    show (if id = 0 then [] else
      (s.fact_signups.map Prod.snd).filter (fun f => f.activity_id = id)) = _
    rw [if_neg (show ¬ id = 0 by omega)]

theorem claim_C6_witness :
    get_signups_by_student overCap "nobody@x.edu" = [] ∧
    get_signups_by_activity overCap "Chess" =
      (overCap.fact_signups.map Prod.snd).filter (fun f => f.activity_id = 1) := by
  have hoc : Reachable overCap :=
    Reachable.signup _ _ _ (Reachable.signup _ _ _ (Reachable.signup _ _ _
      (Reachable.activity _ _ _ _ (Reachable.student _ _ _ Reachable.empty))))
  have h := claim_C6 overCap hoc
  exact ⟨h.1 "nobody@x.edu" (by decide), h.2.2.2 "Chess" 1 (by decide)⟩

theorem alookup_concat_self {α β : Type} [DecidableEq α] {l : List (α × β)}
    {k : α} (h : alookup l k = none) (v : β) :
    alookup (l ++ [(k, v)]) k = some v := by
  rw [alookup_append_of_none _ h]
  simp [alookup]

theorem overCap_reachable : Reachable overCap :=
  Reachable.signup _ _ _ (Reachable.signup _ _ _ (Reachable.signup _ _ _
    (Reachable.activity _ _ _ _ (Reachable.student _ _ _ Reachable.empty))))

/-- Claim C7 — Day-granularity dimension, instant-granularity fact: `add_date`
deduplicates on the calendar day (`strftime("%Y-%m-%d")`) so two timestamps
of the same day yield the same id and state; on a first insertion the stored
row derives `day`, `month`, `year` and the full English weekday name from
the timestamp; a successful `add_signup` appends a fact whose
`signup_timestamp` is the full ISO-8601 instant of the passed timestamp, not
truncated to day; concrete checks pin the weekday names and the ISO form. -/
theorem claim_C7 (s : StarSchemaModel) :
    (∀ t1 t2 : Datetime, t1.dateStr = t2.dateStr →
      add_date (add_date s t1).2 t2 = ((add_date s t1).1, (add_date s t1).2)) ∧
    (∀ t : Datetime, alookup s.date_string_index t.dateStr = none →
      (add_date s t).2.dim_dates = s.dim_dates ++
        [(s.date_counter,
          { date_id := s.date_counter, date := t.dateStr, day := t.day,
            month := t.month, year := t.year, weekday := t.weekdayName })]) ∧
    (∀ (e a : String) (t : Datetime) (sid aid : Nat),
      alookup s.student_email_index e = some sid →
      alookup s.activity_name_index a = some aid →
      (add_signup s e a t).2.fact_signups =
        (add_date s t).2.fact_signups ++
        [((add_date s t).2.fact_counter,
          { fact_signup_id := (add_date s t).2.fact_counter, student_id := sid,
            activity_id := aid, date_id := (add_date s t).1,
            signup_timestamp := t.isoformat })]) ∧
    (Datetime.weekdayName ⟨2024, 1, 1, 0, 0, 0⟩ = "Monday" ∧
     Datetime.weekdayName ⟨2024, 2, 29, 12, 30, 5⟩ = "Thursday" ∧
     Datetime.isoformat ⟨2024, 2, 29, 12, 30, 5⟩ = "2024-02-29T12:30:05" ∧
     Datetime.dateStr ⟨2024, 2, 29, 12, 30, 5⟩ = "2024-02-29") := by
  refine ⟨fun t1 t2 h => add_date_dedup s h, ?_, ?_, by decide⟩
  · intro t h
    rw [add_date_miss h]
  · intro e a t sid aid hse han
    rw [add_signup_ok hse han t]

theorem claim_C7_witness :
    add_date (add_date emptyStore ⟨2024, 3, 10, 8, 0, 0⟩).2 ⟨2024, 3, 10, 22, 15, 0⟩ =
      ((add_date emptyStore ⟨2024, 3, 10, 8, 0, 0⟩).1,
       (add_date emptyStore ⟨2024, 3, 10, 8, 0, 0⟩).2) ∧
    (add_signup wStore "b@x.edu" "Art" demoT).2.fact_signups =
      (add_date wStore demoT).2.fact_signups ++
      [((add_date wStore demoT).2.fact_counter,
        { fact_signup_id := (add_date wStore demoT).2.fact_counter,
          student_id := 2, activity_id := 2,
          date_id := (add_date wStore demoT).1,
          signup_timestamp := Datetime.isoformat demoT })] := by
  have h1 := (claim_C7 emptyStore).1 ⟨2024, 3, 10, 8, 0, 0⟩ ⟨2024, 3, 10, 22, 15, 0⟩
    (by decide)
  have h2 := (claim_C7 wStore).2.2.1 "b@x.edu" "Art" demoT 2 2 (by decide) (by decide)
  exact ⟨h1, h2⟩

/-- Claim C8 — Round-trip via natural key: immediately after
`add_student s e name grade`, `get_student_by_email` on `e` returns a record
whose `student_id` is the id that call returned (and whose email is `e`);
and for an email absent from the index the lookup returns `none` rather than
an error. -/
theorem claim_C8 (s : StarSchemaModel) (hr : Reachable s) :
    (∀ e name grade_level,
      ∃ r, get_student_by_email (add_student s e name grade_level).2 e = some r ∧
        r.student_id = (add_student s e name grade_level).1 ∧ r.email = e) ∧
    (∀ e, alookup s.student_email_index e = none →
      get_student_by_email s e = none) := by
  have hs := reachable_inv hr
  constructor
  · intro e name grade_level
    cases hlook : alookup s.student_email_index e with
    | some id =>
      rw [add_student_hit hlook name grade_level]
      have hpos := key_pos_of_mem_students hs (index_val_mem_students hs hlook)
      obtain ⟨p, hp, hp1, hp2⟩ := index_row_exists_students hs hlook
      have hsome : (alookup s.dim_students id).isSome :=
        alookup_isSome_iff.mpr (index_val_mem_students hs hlook)
      obtain ⟨v, hv⟩ := Option.isSome_iff_exists.mp hsome
      refine ⟨v, ?_, hs.students_idfield (id, v) (alookup_mem hv), ?_⟩
      · simp [get_student_by_email, hlook, hv, show ¬ id = 0 by omega]
      · have hveq : v = p.2 := by
          have hmemp : (id, p.2) ∈ s.dim_students := by
            rw [← hp1]
            exact hp
          exact mem_unique_of_nodup_keys
            (by rw [hs.students_keys]; exact List.nodup_range' 1 _)
            (alookup_mem hv) hmemp
        rw [hveq]
        exact hp2
    | none =>
      rw [add_student_miss hlook name grade_level]
      have hnone : alookup s.dim_students s.student_counter = none := by
        rw [alookup_eq_none_iff, hs.students_keys]
        intro hmem
        rw [hs.students_counter] at hmem
        have := List.mem_range'_1.mp hmem
        omega
      have hcpos : ¬ s.student_counter = 0 := by
        rw [hs.students_counter]
        omega
      refine ⟨⟨s.student_counter, e, name, grade_level⟩, ?_, rfl, rfl⟩
      simp [get_student_by_email, alookup_concat_self hlook,
        alookup_concat_self hnone, hcpos]
  · intro e h
    unfold get_student_by_email
    rw [h]

theorem claim_C8_witness :
    (∃ r, get_student_by_email (add_student wStore "c@x.edu" "C" 11).2 "c@x.edu" =
        some r ∧
      r.student_id = (add_student wStore "c@x.edu" "C" 11).1 ∧
      r.email = "c@x.edu") ∧
    get_student_by_email wStore "nobody@x.edu" = none := by
  have h := claim_C8 wStore wStore_reachable
  exact ⟨h.1 "c@x.edu" "C" 11, h.2 "nobody@x.edu" (by decide)⟩

/-- Claim C9 — Index–table consistency: in every reachable store each lookup
index is a bijection between natural keys and the keys of its table — every
table key has exactly one reverse entry in the index, every index entry
points at an existing row whose natural-key field equals the index key, and
every row has exactly one index entry under its natural key; for students,
activities and dates alike. -/
theorem claim_C9 (s : StarSchemaModel) (hr : Reachable s) :
    ((∀ k ∈ s.dim_students.map Prod.fst,
        (s.student_email_index.filter (fun q => q.2 = k)).length = 1) ∧
     (∀ q ∈ s.student_email_index,
        ∃ p ∈ s.dim_students, p.1 = q.2 ∧ p.2.email = q.1) ∧
     (∀ p ∈ s.dim_students,
        (s.student_email_index.filter (fun q => q.1 = p.2.email)).length = 1)) ∧
    ((∀ k ∈ s.dim_activities.map Prod.fst,
        (s.activity_name_index.filter (fun q => q.2 = k)).length = 1) ∧
     (∀ q ∈ s.activity_name_index,
        ∃ p ∈ s.dim_activities, p.1 = q.2 ∧ p.2.activity_name = q.1) ∧
     (∀ p ∈ s.dim_activities,
        (s.activity_name_index.filter (fun q => q.1 = p.2.activity_name)).length = 1)) ∧
    ((∀ k ∈ s.dim_dates.map Prod.fst,
        (s.date_string_index.filter (fun q => q.2 = k)).length = 1) ∧
     (∀ q ∈ s.date_string_index,
        ∃ p ∈ s.dim_dates, p.1 = q.2 ∧ p.2.date = q.1) ∧
     (∀ p ∈ s.dim_dates,
        (s.date_string_index.filter (fun q => q.1 = p.2.date)).length = 1)) := by
  have hs := reachable_inv hr
  refine ⟨?_, ?_, ?_⟩
  · exact index_bijection hs.students_index
      (by rw [hs.students_keys]; exact List.nodup_range' 1 _)
      hs.students_emails_nodup
  · exact index_bijection hs.activities_index
      (by rw [hs.activities_keys]; exact List.nodup_range' 1 _)
      hs.activities_names_nodup
  · exact index_bijection hs.dates_index
      (by rw [hs.dates_keys]; exact List.nodup_range' 1 _)
      hs.dates_strings_nodup

theorem claim_C9_witness :
    (overCap.student_email_index.filter (fun q => q.2 = 1)).length = 1 ∧
    (overCap.date_string_index.filter (fun q => q.2 = 1)).length = 1 := by
  have h := claim_C9 overCap overCap_reachable
  exact ⟨h.1.1 1 (by decide), h.2.2.1 1 (by decide)⟩

/-- Claim C10 — Frame property of `add_signup` (the read operations
`get_student_by_email`, `get_activity_by_name`, `get_signups_by_student`,
`get_signups_by_activity`, `get_activity_analytics`, `get_student_analytics`
perform no assignment to any field of the store in the source and are
accordingly embedded as pure functions of the state, so they cannot change
it): a successful `add_signup` leaves both non-date dimension tables, both
their indexes and both their counters unchanged, appends exactly one fact
row, and appends at most one date row. -/
theorem claim_C10 (s : StarSchemaModel) (e a : String) (t : Datetime) (fid : Nat)
    (h : (add_signup s e a t).1 = .ok fid) :
    (add_signup s e a t).2.dim_students = s.dim_students ∧
    (add_signup s e a t).2.dim_activities = s.dim_activities ∧
    (add_signup s e a t).2.student_email_index = s.student_email_index ∧
    (add_signup s e a t).2.activity_name_index = s.activity_name_index ∧
    (add_signup s e a t).2.student_counter = s.student_counter ∧
    (add_signup s e a t).2.activity_counter = s.activity_counter ∧
    (∃ row, (add_signup s e a t).2.fact_signups = s.fact_signups ++ [row]) ∧
    ((add_signup s e a t).2.dim_dates = s.dim_dates ∨
      ∃ drow, (add_signup s e a t).2.dim_dates = s.dim_dates ++ [drow]) := by
  cases hse : alookup s.student_email_index e with
  | none =>
    rw [add_signup_unknown_student hse a t] at h
    exact absurd h (by simp)
  | some sid =>
    cases han : alookup s.activity_name_index a with
    | none =>
      rw [add_signup_unknown_activity hse han t] at h
      exact absurd h (by simp)
    | some aid =>
      rw [add_signup_ok hse han t]
      obtain ⟨h1, h2, h3, h4, h5, h6, h7, h8⟩ := add_date_frame s t
      refine ⟨h1, h2, h7, h8, h4, h5, ?_, add_date_dates s t⟩
      refine ⟨((add_date s t).2.fact_counter,
        ⟨(add_date s t).2.fact_counter, sid, aid, (add_date s t).1,
          t.isoformat⟩), ?_⟩
      show (add_date s t).2.fact_signups ++ _ = s.fact_signups ++ _
      rw [h3]

theorem claim_C10_witness :
    (add_signup wStore "a@x.edu" "Chess" demoT).2.dim_students = wStore.dim_students ∧
    (add_signup wStore "a@x.edu" "Chess" demoT).2.student_email_index =
      wStore.student_email_index ∧
    (∃ row, (add_signup wStore "a@x.edu" "Chess" demoT).2.fact_signups =
      wStore.fact_signups ++ [row]) := by
  have h := claim_C10 wStore "a@x.edu" "Chess" demoT 1 (by rfl)
  exact ⟨h.1, h.2.2.1, h.2.2.2.2.2.2.1⟩
